/-
Verification of the reference-resolution and field-normalization layer of
ldtk-ts (src/index.ts).  The snapshot contains two revisions of index.ts
(src/src/index.ts and src/unnamed/part_002); part_002 is the later revision
(it carries the fixes for the neighbour cache initializer, the Point-array
map assignment and the Enum icon-tileset lookup).  The definitions below are
translated from part_002; places where the older revision differs are noted
in comments.
-/
import Mathlib

namespace LdtkTs

/-! ### JavaScript value and container primitives

The source manipulates plain JavaScript values (objects, arrays, `null`,
`undefined`) and plain objects used as string-keyed records.  These helpers
model exactly the JS behaviours the source relies on. -/

/-- A dynamic JavaScript value, as manipulated by `parseField`.
Numbers are modelled as integers (the source never computes with them, it
only moves them around). -/
inductive JSVal where
  | null
  | undefined
  | num (n : Int)
  | str (s : String)
  | bool (b : Bool)
  | arr (elems : List JSVal)
  | obj (fields : List (String × JSVal))

/-- JS property access `v.k` on a value that is neither `null` nor
`undefined`: objects yield the property value or `undefined`; every other
value (number, string, array, ...) yields `undefined` for the keys the
source uses. -/
def jsGet (v : JSVal) (k : String) : JSVal :=
  match v with
  | .obj fields => ((fields.find? (fun p => p.1 == k)).map Prod.snd).getD .undefined
  | _ => .undefined

/-- `v != null` in JS (loose inequality): false exactly for `null` and
`undefined`. -/
def jsNotNull (v : JSVal) : Bool :=
  match v with
  | .null => false
  | .undefined => false
  | _ => true

/-- JS object property write `m[k] = v`: overwriting keeps the key's
original insertion position, otherwise the key is appended.  (This is the
JS own-property order for non-integer-like string keys; all identifiers the
theorems use are of that kind.) -/
def jsRecordSet (m : List (String × α)) (k : String) (v : α) : List (String × α) :=
  match m with
  | [] => [(k, v)]
  | (k', v') :: rest =>
      if k' == k then (k', v) :: rest else (k', v') :: jsRecordSet rest k v

/-- JS object property read `m[k]`: `none` models `undefined`. -/
def jsRecordGet (m : List (String × α)) (k : String) : Option α :=
  ((m.find? (fun p => p.1 == k)).map Prod.snd)

/-- `Object.values(m)` in insertion order. -/
def jsRecordValues (m : List (String × α)) : List α :=
  m.map Prod.snd

/-- `Object.keys(m)` in insertion order. -/
def jsRecordKeys (m : List (String × α)) : List String :=
  m.map Prod.fst

/-- JS array element write `a[i] = v`: writing past the end extends the
array with holes (`none` models an empty slot / `undefined`). -/
def jsSet : List (Option α) → Nat → α → List (Option α)
  | [], 0, v => [some v]
  | [], i + 1, v => none :: jsSet [] i v
  | _ :: t, 0, v => some v :: t
  | h :: t, i + 1, v => h :: jsSet t i v

/-- Read cell `g[x][y]` of a 2D JS array with holes; `none` models both a
hole and a missing column (`undefined`): reading past the end, reading a
hole, and reading through an absent column all flatten to absence. -/
def cellGet (g : List (Option (List (Option Int)))) (x y : Nat) : Option Int :=
  (g[x]?).join.bind (fun col => (col[y]?).join)

/-! ### The field-type regular expression

`src/index.ts` line 256 (part_002; line 164 of the older revision):

  const FieldTypeRegex = /(?:Array<)*(?:(\w+)Enum)*\.*(\w+)>*/;

The functions below implement `FieldTypeRegex.exec` for exactly this
pattern with JavaScript semantics: an unanchored leftmost search, greedy
quantifiers with backtracking, capture 1 = the `\w+` of the last
`(?:(\w+)Enum)` iteration used by the accepted path (absent if none),
capture 2 = the final `(\w+)`. -/

/-- JS `\w`: ASCII letters, digits and underscore. -/
def isWordChar (c : Char) : Bool :=
  c.isAlpha || c.isDigit || c == '_'

/-- Captures of a successful match (`exec` result groups 1 and 2).  The
overall matched text (group 0) is never used by the source, so it is not
tracked. -/
structure MResult where
  g1 : Option (List Char)
  g2 : List Char
deriving Repr, DecidableEq

/-- Length of the maximal `\w` run at the head of the input. -/
def wCount (cs : List Char) : Nat :=
  (cs.takeWhile isWordChar).length

/-- Trailing `>*` then end of pattern: always succeeds (the consumed `>`s
only affect group 0, which is unused). -/
def tailGtStar (g1 : Option (List Char)) (g2 : List Char) (_rest : List Char) : Option MResult :=
  some ⟨g1, g2⟩

/-- `(\w+)` (capture 2) followed by `>*`, greedy: try the longest word
prefix first, then shorter ones, at least one character. -/
def g2Try (g1 : Option (List Char)) (cs : List Char) : Nat → Option MResult
  | 0 => none
  | j + 1 =>
      match tailGtStar g1 (cs.take (j + 1)) (cs.drop (j + 1)) with
      | some r => some r
      | none => g2Try g1 cs j

/-- `(\w+)>*` at the current position. -/
def wPlus (g1 : Option (List Char)) (cs : List Char) : Option MResult :=
  g2Try g1 cs (wCount cs)

/-- `\.*` (greedy, with backtracking) followed by `(\w+)>*`. -/
def dotStar (g1 : Option (List Char)) : List Char → Option MResult
  | [] => wPlus g1 []
  | c :: rest =>
      if c == '.' then
        match dotStar g1 rest with
        | some r => some r
        | none => wPlus g1 (c :: rest)
      else wPlus g1 (c :: rest)

/-- `(?:(\w+)Enum)*\.*(\w+)>*` at the current position.  `j` enumerates the
candidate lengths of the iteration's `\w+` from the greedy maximum
(`wCount cs`, the caller's invariant) down to 1; `j = 0` is the fallback to
zero further iterations.  A successful iteration records its `\w+` as
capture 1 and recurses behind the consumed `\w+Enum`.

The first argument is recursion fuel, decremented at every recursive call
so that the definition is structurally recursive (and hence reduces inside
the kernel).  Fuel bounds the nesting depth of the calls: one level does at
most `j + 1 ≤ cs.length + 1` steps before descending, and a descent
consumes at least 5 characters, so a depth of
`(cs.length + 1) * (cs.length + 1)` (the fuel `matchAt` supplies) is never
exhausted. -/
def enumStarTry : Nat → Option (List Char) → List Char → Nat → Option MResult
  | 0, _, _, _ => none
  | _ + 1, g1, cs, 0 => dotStar g1 cs
  | fuel + 1, g1, cs, j + 1 =>
      if ("Enum".toList).isPrefixOf (cs.drop (j + 1)) then
        match enumStarTry fuel (some (cs.take (j + 1))) (cs.drop (j + 5)) (wCount (cs.drop (j + 5))) with
        | some r => some r
        | none => enumStarTry fuel g1 cs j
      else enumStarTry fuel g1 cs j

/-- The fuel supplied to `enumStarTry`, ample for its call depth. -/
def starFuel (cs : List Char) : Nat :=
  (cs.length + 1) * (cs.length + 1)

/-- `(?:Array<)*(?:(\w+)Enum)*\.*(\w+)>*` at the current position (the whole
pattern), greedy on the `Array<` repetitions.  Fueled like `enumStarTry`;
an iteration consumes 6 characters, so the `cs.length + 1` fuel that
`execAux` supplies is never exhausted. -/
def matchAt : Nat → List Char → Option MResult
  | 0, _ => none
  | fuel + 1, cs =>
      if ("Array<".toList).isPrefixOf cs then
        match matchAt fuel (cs.drop 6) with
        | some r => some r
        | none => enumStarTry (starFuel cs) none cs (wCount cs)
      else enumStarTry (starFuel cs) none cs (wCount cs)

/-- The whole pattern at one start position, with ample fuel. -/
def matchTop (cs : List Char) : Option MResult :=
  matchAt (cs.length + 1) cs

/-- `FieldTypeRegex.exec(s)`: unanchored leftmost search over the start
positions of the subject string. -/
def execAux : List Char → Option MResult
  | [] => matchTop []
  | c :: t =>
      match matchTop (c :: t) with
      | some r => some r
      | none => execAux t

/-- `FieldTypeRegex.exec` on a string; `none` models a `null` result. -/
def fieldTypeExec (s : String) : Option MResult :=
  execAux s.toList

/-! ### Raw records (src/typedef.ts) and the definition tables of `World`

Only the fields the translated code paths read are carried; the remaining
pass-through fields of the schema records are omitted. -/

/-- `LDtk.TilesetDefinition` (the `Tileset` wrapper class exposes exactly
this data through getters). -/
structure TilesetDefinition where
  identifier : String
  uid : Int
deriving Repr, DecidableEq

/-- `LDtk.EnumDefinition` distilled to the fields the claims touch (the
`Enum` wrapper's `valueMap`/`values` are built from `data.values`, which no
claim inspects). -/
structure EnumDefinitionRaw where
  identifier : String
  uid : Int
deriving Repr, DecidableEq

/-- `LDtk.EntityDefinition` as read by the `Entity` constructor. -/
structure EntityDefinitionRaw where
  uid : Int
  tilesetId : Option Int
deriving Repr, DecidableEq

/-- `LDtk.IntGridValueDefinition`. -/
structure IntGridValueDefinitionRaw where
  color : String
  identifier : Option String
deriving Repr, DecidableEq

/-- `LDtk.LayerDefinition` as read by the `Layer` constructor. -/
structure LayerDefinitionRaw where
  uid : Int
  intGridValues : List IntGridValueDefinitionRaw
deriving Repr, DecidableEq

/-- `LDtk.Definitions`. -/
structure DefsRaw where
  tilesets : List TilesetDefinition
  enums : List EnumDefinitionRaw
  entities : List EntityDefinitionRaw
  layers : List LayerDefinitionRaw
deriving Repr, DecidableEq

/-- The definition tables the `World` constructor builds from `data.defs`,
plus the raw definition lists that `Entity`/`Layer` constructors read back
through the world's private `data` field. -/
structure WorldDefs where
  tilesetMap : List (String × TilesetDefinition)
  tilesetIds : List String
  tilesets : List TilesetDefinition
  enumMap : List (String × EnumDefinitionRaw)
  enumIds : List String
  enums : List EnumDefinitionRaw
  entityDefs : List EntityDefinitionRaw
  layerDefs : List LayerDefinitionRaw
deriving Repr, DecidableEq

/-- The `World` constructor's definition loading: for each tileset
`tilesetMap[t.identifier] = new Tileset(this, t)` (note: the key is the
string `identifier`, even though the field is declared
`Record<number, Tileset>`), then `tilesetIds = Object.keys`,
`tilesets = Object.values`; likewise for enums.  An absent `defs` section
leaves all tables empty. -/
def World.ofDefs (defs : Option DefsRaw) : WorldDefs :=
  match defs with
  | none => ⟨[], [], [], [], [], [], [], []⟩
  | some d =>
      let tm := d.tilesets.foldl (fun m t => jsRecordSet m t.identifier t) []
      let em := d.enums.foldl (fun m e => jsRecordSet m e.identifier e) []
      ⟨tm, jsRecordKeys tm, jsRecordValues tm,
       em, jsRecordKeys em, jsRecordValues em,
       d.entities, d.layers⟩

/-- `World.findTileset`: linear scan in iteration order, first match. -/
def findTileset (w : WorldDefs) (p : TilesetDefinition → Bool) : Option TilesetDefinition :=
  w.tilesets.find? p

/-- `World.findTilesetByUid`. -/
def findTilesetByUid (w : WorldDefs) (uid : Int) : Option TilesetDefinition :=
  findTileset w (fun t => t.uid == uid)

/-- `Layer.tileset` (getter): `undefined` when `__tilesetDefUid` is null,
otherwise `world.tilesetMap[uid]` — a property read keyed by the number's
string form, against a map whose keys are tileset identifiers. -/
def layerTilesetAccessor (w : WorldDefs) (tilesetDefUid : Option Int) : Option TilesetDefinition :=
  match tilesetDefUid with
  | none => none
  | some uid => jsRecordGet w.tilesetMap (toString uid)

/-- The `Entity` constructor's display-tileset resolution: scan every entry
of `defs.entities`; on a `uid` match with a non-null `tilesetId`, assign
`tileset_ = world.tilesetMap[tilesetId]` (the loop does not break, so a
later match overwrites, and a null `tilesetId` leaves the previous value). -/
def entityTilesetAccessor (w : WorldDefs) (defUid : Int) : Option TilesetDefinition :=
  w.entityDefs.foldl
    (fun acc ed =>
      if ed.uid == defUid then
        match ed.tilesetId with
        | some tid => jsRecordGet w.tilesetMap (toString tid)
        | none => acc
      else acc)
    none

/-! ### The field normalizer `parseField` (src/index.ts, part_002 revision)

The older revision reads Point coordinates as `value[0]` / `value[1]` and
discards the result of the Point-array `map`; part_002 reads `.cx` / `.cy`
and assigns the mapped array. -/

/-- `LDtk.FieldInstance`: `__identifier`, `__type`, `__value`. -/
structure FieldInstance where
  identifier : String
  type : String
  value : JSVal

/-- The errors `parseField` can raise: the structured `Invalid type name`
error (carrying the pieces interpolated into the message: field identifier,
owning entity identifier, and the offending type string), or a JS
`TypeError` from calling `.map` on a non-array / reading a property of
`null`/`undefined`. -/
inductive FieldError where
  | invalidType (fieldId : String) (entityId : String) (typeStr : String)
  | typeError

/-- The `Field` object `parseField` returns: `{id, type, value}` plus, for
enum types only, a `ref` property holding `world.enumMap[typeName]` (which
is `undefined` — modelled `some none` — when the enum name is absent). -/
structure ParsedField where
  id : String
  type : String
  value : JSVal
  ref : Option (Option EnumDefinitionRaw)

/-- The Point-array element transform `v => ({x: v.cx, y: v.cy})`; reading a
property of `null`/`undefined` is a TypeError. -/
def pointifyElem (v : JSVal) : Except FieldError JSVal :=
  match v with
  | .null => .error .typeError
  | .undefined => .error .typeError
  | _ => .ok (.obj [("x", jsGet v "cx"), ("y", jsGet v "cy")])

/-- `array.map(v => ({x: v.cx, y: v.cy}))`, element by element in order,
stopping at the first TypeError. -/
def mapPointify : List JSVal → Except FieldError (List JSVal)
  | [] => .ok []
  | v :: rest =>
      match pointifyElem v with
      | .error e => .error e
      | .ok y => (mapPointify rest).map (fun ys => y :: ys)

/-- `parseField(field, world, entityId)` (part_002 lines 257-300). -/
def parseField (field : FieldInstance) (enumMap : List (String × EnumDefinitionRaw))
    (entityId : String) : Except FieldError ParsedField :=
  match fieldTypeExec field.type with
  | none => .error (.invalidType field.identifier entityId field.type)
  | some result =>
      -- `field.__type.startsWith("Array")` (as a kernel-reducible list test)
      let isArray := ("Array".toList).isPrefixOf field.type.toList
      let isEnum := result.g1.isSome
      let id := field.identifier
      let typeName : String := ⟨result.g2⟩
      let ty0 := if isEnum then "Enum" else typeName
      let ty := if isArray then ty0 ++ "Array" else ty0
      let ref : Option (Option EnumDefinitionRaw) :=
        if isEnum then some (jsRecordGet enumMap typeName) else none
      let v0 := field.value
      let v1 :=
        if jsNotNull v0 && (ty == "Point") then
          JSVal.obj [("x", jsGet v0 "cx"), ("y", jsGet v0 "cy")]
        else v0
      if ty == "PointArray" then
        match v1 with
        | .arr elems => (mapPointify elems).map (fun es => ⟨id, ty, .arr es, ref⟩)
        | _ => .error .typeError
      else .ok ⟨id, ty, v1, ref⟩

/-! ### `Entity` and `Layer` construction -/

/-- `LDtk.EntityInstance` as read by the `Entity` constructor (the pixel /
grid / pivot coordinates feed only positional getters no claim touches). -/
structure EntityInstanceRaw where
  identifier : String
  defUid : Int
  fieldInstances : List FieldInstance

/-- The parts of an `Entity` the claims inspect: the normalized field map
and the resolved display tileset. -/
structure EntityObj where
  fields : List (String × ParsedField)
  tileset : Option TilesetDefinition

/-- The `Entity` constructor: normalize every raw field instance in order
into the `fields` record (keyed by `__identifier`), then resolve the
display tileset through the entity-definition table. -/
def entityNew (w : WorldDefs) (data : EntityInstanceRaw) : Except FieldError EntityObj := do
  let fields ← data.fieldInstances.foldlM
    (fun m inst => (parseField inst w.enumMap data.identifier).map (jsRecordSet m inst.identifier))
    []
  pure ⟨fields, entityTilesetAccessor w data.defUid⟩

/-- `LDtk.TileInstance` (pure pass-through data). -/
structure TileRaw where
  f : Int
  px : Int × Int
  src : Int × Int
  t : Int
deriving Repr, DecidableEq

/-- `LDtk.IntGridValueInstance`: `{coordId, v}`. -/
structure IntGridInstanceRaw where
  coordId : Nat
  v : Int
deriving Repr, DecidableEq

/-- `LDtk.LayerInstance` as read by the `Layer` constructor and getters. -/
structure LayerInstanceRaw where
  type : String
  cWid : Nat
  cHei : Nat
  autoLayerTiles : List TileRaw
  entityInstances : List EntityInstanceRaw
  gridTiles : List TileRaw
  intGrid : List IntGridInstanceRaw
  tilesetDefUid : Option Int
  layerDefUid : Int

/-- An IntGrid value-legend entry (`IntGridValueDef`). -/
structure IntGridValueDef where
  color : String
  id : Option String
deriving Repr, DecidableEq

/-- The constructed layer: the four payload fields, all initialized `null`,
of which the constructor's switch populates at most one, plus the
`intGridValues` legend. -/
structure LayerObj where
  autoLayerTiles : Option (List TileRaw)
  entities : Option (List EntityObj)
  gridTiles : Option (List TileRaw)
  intGrid : Option (List (Option (List (Option Int))))
  intGridValues : List (Nat × IntGridValueDef)

/-- The body of the IntGrid unpacking loop: for one sparse entry compute
`y = floor(coordId / width)`, `x = coordId - y * width`, create the column
`new Array(height)` if the slot is still empty, and write
`grid[x][y] = v`. -/
def intGridPut (width height : Nat) (g : List (Option (List (Option Int))))
    (inst : IntGridInstanceRaw) : List (Option (List (Option Int))) :=
  let y := inst.coordId / width
  let x := inst.coordId - y * width
  let col :=
    match g[x]? with
    | some (some c) => c
    | _ => List.replicate height (none : Option Int)
  jsSet g x (jsSet col y inst.v)

/-- The IntGrid unpacking loop: start from `new Array(width)` (all holes)
and run `intGridPut` over the sparse entries in order. -/
def buildIntGrid (width height : Nat) (entries : List IntGridInstanceRaw) :
    List (Option (List (Option Int))) :=
  entries.foldl (intGridPut width height)
    (List.replicate width (none : Option (List (Option Int))))

/-- JS object write with a numeric key (for the `Record<number, ...>` used
by `intGridValues`). -/
def jsRecordSetNat (m : List (Nat × α)) (k : Nat) (v : α) : List (Nat × α) :=
  match m with
  | [] => [(k, v)]
  | (k', v') :: rest =>
      if k' == k then (k', v) :: rest else (k', v') :: jsRecordSetNat rest k v

/-- The IntGrid legend loop: scan `defs.layers` for the matching layer uid
and copy its `intGridValues` entries keyed by their array index. -/
def buildIntGridValues (w : WorldDefs) (layerUid : Int) : List (Nat × IntGridValueDef) :=
  w.layerDefs.foldl
    (fun acc ld =>
      if ld.uid == layerUid then
        ld.intGridValues.enum.foldl
          (fun acc2 p => jsRecordSetNat acc2 p.1 ⟨p.2.color, p.2.identifier⟩) acc
      else acc)
    []

/-- The `Layer` constructor's dispatch on the raw `type` discriminant.  The
switch has cases for exactly `AutoLayer`, `Entities`, `Tiles`, `IntGrid`
and **no default clause**: any other discriminant falls through with all
four payloads left `null` and no error. -/
def layerNew (w : WorldDefs) (data : LayerInstanceRaw) : Except FieldError LayerObj :=
  match data.type with
  | "AutoLayer" => .ok ⟨some data.autoLayerTiles, none, none, none, []⟩
  | "Entities" =>
      (data.entityInstances.mapM (entityNew w)).map (fun es => ⟨none, some es, none, none, []⟩)
  | "Tiles" => .ok ⟨none, none, some data.gridTiles, none, []⟩
  | "IntGrid" =>
      .ok ⟨none, none, none, some (buildIntGrid data.cWid data.cHei data.intGrid),
           buildIntGridValues w data.layerDefUid⟩
  | _ => .ok ⟨none, none, none, none, []⟩

/-! ### `Level.neighbours` (lazy, memoized) -/

/-- A raw neighbour entry (`LDtk.NeighbourLevel`). -/
structure NeighbourRaw where
  dir : String
  levelUid : Int
deriving Repr, DecidableEq

/-- `LDtk.Level` as read by the level-resolution code paths. -/
structure RawLevel where
  identifier : String
  uid : Int
  externalRelPath : Option String
  neighbours : List NeighbourRaw
deriving Repr, DecidableEq

/-- A resolved neighbour `{dir, level}`.  The source stores a reference to
the sibling `Level` object; the model carries that level's raw record. -/
structure ResolvedNeighbour where
  dir : String
  level : RawLevel
deriving Repr, DecidableEq

/-- `World.findLevelByUid` via `findLevel`: first level whose `uid` getter
matches, scanning `world.levels` in order. -/
def findLevelByUid (levels : List RawLevel) (uid : Int) : Option RawLevel :=
  levels.find? (fun l => l.uid == uid)

/-- The pieces interpolated into the error thrown by the `neighbours`
getter: the missing neighbour uid and the owning level's identifier. -/
structure NeighbourErr where
  missingUid : Int
  levelId : String
deriving Repr, DecidableEq

/-- A `Level`'s mutable neighbour state: the raw record plus the private
`neighbours_` cache, initialized `null` (part_002; the older revision
initialized it to `[]`, which makes the lazy branch unreachable). -/
structure LevelState where
  data : RawLevel
  cache : Option (List ResolvedNeighbour)
deriving Repr, DecidableEq

/-- The resolution loop of the `neighbours` getter: resolve each raw entry
in order through `world.findLevelByUid`, throwing at the first entry whose
uid is not found. -/
def resolveNeighbours (levels : List RawLevel) (ownerId : String) :
    List NeighbourRaw → Except NeighbourErr (List ResolvedNeighbour)
  | [] => .ok []
  | n :: rest =>
      match findLevelByUid levels n.levelUid with
      | none => .error ⟨n.levelUid, ownerId⟩
      | some l => (resolveNeighbours levels ownerId rest).map (fun ns => ⟨n.dir, l⟩ :: ns)

/-- The `neighbours` getter: return the cache if present, otherwise resolve
all entries, store them, and return them. -/
def getNeighbours (levels : List RawLevel) (st : LevelState) :
    Except NeighbourErr (List ResolvedNeighbour × LevelState) :=
  match st.cache with
  | some ns => .ok (ns, st)
  | none =>
      (resolveNeighbours levels st.data.identifier st.data.neighbours).map
        (fun ns => (ns, { st with cache := some ns }))

/-! ### External-level loading (`World.loadLevel` / `World.loadLevels`)

The injected text-retrieval collaborator (`loadJSON` + `new Level`) is
modelled as a pure function from a relative path to the parsed level
record; the returned count is the number of fetches the call performed. -/

/-- The mutable level storage of a `World` in external-levels mode:
`data.levels` (the immutable stub list) plus `levelMap`, `levelIds` and
`levels` (JS arrays which acquire holes when written past the end). -/
structure ExtWorld where
  rawLevels : List RawLevel
  levelMap : List (String × RawLevel)
  levelIds : List (Option String)
  levels : List (Option RawLevel)
deriving Repr, DecidableEq

/-- The index-searching loop of `loadLevel`: first stub whose `identifier`
matches, with its index (the loop breaks on the first hit). -/
def findLevelStubAux (identifier : String) : Nat → List RawLevel → Option (Nat × RawLevel)
  | _, [] => none
  | i, l :: rest =>
      if l.identifier == identifier then some (i, l) else findLevelStubAux identifier (i + 1) rest

/-- First stub with the given identifier, with its index. -/
def findLevelStub (levels : List RawLevel) (identifier : String) : Option (Nat × RawLevel) :=
  findLevelStubAux identifier 0 levels

/-- The `Level ... does not exist!` error of `loadLevel`. -/
inductive LoadErr where
  | levelNotFound (identifier : String)
deriving Repr, DecidableEq

/-- `World.loadLevel(identifier)`: no-op when the identifier is already a
key of `levelMap`; otherwise find the stub and its index, fetch the
external file (`level.externalRelPath!` — the non-null assertion is
modelled by defaulting to the empty path), and insert the loaded level
into `levelMap` (keyed by the *loaded* level's identifier), `levelIds[i]`
and `levels[i]`. -/
def loadLevel (w : ExtWorld) (fetchLevel : String → RawLevel) (identifier : String) :
    Except LoadErr (ExtWorld × Nat) :=
  if (jsRecordGet w.levelMap identifier).isSome then .ok (w, 0)
  else
    match findLevelStub w.rawLevels identifier with
    | none => .error (.levelNotFound identifier)
    | some (i, stub) =>
        let loaded := fetchLevel (stub.externalRelPath.getD "")
        .ok ({ w with
                levelMap := jsRecordSet w.levelMap loaded.identifier loaded,
                levelIds := jsSet w.levelIds i loaded.identifier,
                levels := jsSet w.levels i loaded }, 1)

/-- The fetches `World.loadLevels()` issues: its loop body runs
synchronously, so the set of fetches is decided against the *initial*
`levelMap` (skip stubs already present, and stubs without an
`externalRelPath`), each fetch tagged with its stub's index. -/
def loadLevelsTasks (w : ExtWorld) : List (Nat × String) :=
  w.rawLevels.enum.filterMap
    (fun p =>
      if (jsRecordGet w.levelMap p.2.identifier).isSome then none
      else p.2.externalRelPath.map (fun rel => (p.1, rel)))

/-- One resolved fetch of `loadLevels` landing: insert the loaded level
into the three indices at the stub's position. -/
def applyLoadedLevel (fetchLevel : String → RawLevel) (acc : ExtWorld)
    (t : Nat × String) : ExtWorld :=
  let loaded := fetchLevel t.2
  { acc with
      levelMap := jsRecordSet acc.levelMap loaded.identifier loaded,
      levelIds := jsSet acc.levelIds t.1 loaded.identifier,
      levels := jsSet acc.levels t.1 loaded }

/-- `World.loadLevels()`: wait for every fetch and land each in the world;
the returned count is the number of fetches issued.  `Promise.all`
resolution order only permutes insertions at pairwise-distinct keys and
indices, so the insertions are applied in stub order. -/
def loadLevels (w : ExtWorld) (fetchLevel : String → RawLevel) : ExtWorld × Nat :=
  ((loadLevelsTasks w).foldl (applyLoadedLevel fetchLevel) w, (loadLevelsTasks w).length)

/-! ### The `World` class surface -/

/-- The names of every member declared by `class World` (fields, getters
and methods, in source order; both revisions declare the same set). -/
def worldMembers : List String :=
  ["levelMap", "levelIds", "levels",
   "tilesetMap", "tilesetIds", "tilesets",
   "enumMap", "enumIds", "enums",
   "constructor",
   "findLevel", "findTileset", "findEnum",
   "findLevelByUid", "findTilesetByUid", "findTilesetByPath", "findEnumByUid",
   "externalLevels", "bgColor", "layout",
   "loadLevels", "loadLevel",
   "fromJSON", "fromURL", "fetchLevel", "loadRaw"]

/-! ### The spec's field-type grammar (for the refinement claim C4)

`specFieldTypeGrammar` follows the spec's words (§4.1): an optional
`Array< ... >` wrapper around either a bare scalar type name or an enum
reference of the form `(LocalEnum|ExternalEnum).<EnumName>`.  It exists to
be compared against the source's `FieldTypeRegex` acceptance. -/

/-- A nonempty `\w`-identifier (an enum name). -/
def isWordIdent (s : String) : Bool :=
  !s.isEmpty && s.toList.all isWordChar

/-- The scalar type names of the format (spec §3/§4.1). -/
def specScalarNames : List String :=
  ["Int", "Float", "String", "Bool", "Color", "Point", "FilePath"]

/-- An enum reference per the spec's grammar. -/
def specEnumRef (s : String) : Bool :=
  (("LocalEnum.".toList).isPrefixOf s.toList && isWordIdent (s.drop 10)) ||
  (("ExternalEnum.".toList).isPrefixOf s.toList && isWordIdent (s.drop 13))

/-- The unwrapped core of the spec's grammar. -/
def specCore (s : String) : Bool :=
  specScalarNames.contains s || specEnumRef s

/-- The spec's grammar for a field type string. -/
def specFieldTypeGrammar (s : String) : Bool :=
  specCore s ||
  (("Array<".toList).isPrefixOf s.toList && ((">".toList).isSuffixOf s.toList) &&
    specCore ((s.drop 6).dropRight 1))

/-- Whether a string contains at least one `\w` character — the exact
condition under which `FieldTypeRegex` matches it. -/
def hasWordChar (s : String) : Bool :=
  s.toList.any isWordChar

/-- How many (non-hole) entries of a JS level array carry a given
identifier — the measure behind "exactly one Level named X in
`world.levels`". -/
def countNamed (ls : List (Option RawLevel)) (id : String) : Nat :=
  (ls.filter (fun o =>
    match o with
    | some l => l.identifier == id
    | none => false)).length

/-! ## Theorems -/

/-! ### Helper lemmas for JS records and arrays -/

theorem jsRecordGet_set_self (m : List (String × α)) (k : String) (v : α) :
    jsRecordGet (jsRecordSet m k v) k = some v := by
  induction m with
  | nil => simp [jsRecordSet, jsRecordGet]
  | cons p rest ih =>
      by_cases h : p.1 == k
      · cases p
        simp_all [jsRecordSet, jsRecordGet, List.find?]
      · cases p
        simp_all [jsRecordSet, jsRecordGet, List.find?]

theorem jsRecordGet_set_other (m : List (String × α)) (k k' : String) (v : α)
    (h : k' ≠ k) : jsRecordGet (jsRecordSet m k v) k' = jsRecordGet m k' := by
  have hkk : (k == k') = false := beq_eq_false_iff_ne.mpr (fun e => h e.symm)
  induction m with
  | nil => simp [jsRecordSet, jsRecordGet, List.find?, hkk]
  | cons p rest ih =>
      obtain ⟨k0, v0⟩ := p
      cases hb : (k0 == k) with
      | true =>
          have hk0 : k0 = k := beq_iff_eq.mp hb
          subst hk0
          simp [jsRecordSet, jsRecordGet, List.find?, hkk, hb]
      | false =>
          cases hb2 : (k0 == k') with
          | true => simp [jsRecordSet, jsRecordGet, List.find?, hb, hb2]
          | false =>
              simpa [jsRecordSet, jsRecordGet, List.find?, hb, hb2] using ih

theorem jsRecordGet_set_isSome (m : List (String × α)) (k k' : String) (v : α)
    (h : (jsRecordGet m k').isSome) : (jsRecordGet (jsRecordSet m k v) k').isSome := by
  by_cases hk : k' = k
  · subst hk
    simp [jsRecordGet_set_self]
  · rw [jsRecordGet_set_other m k k' v hk]
    exact h

theorem jsSet_nil (i : Nat) (v : α) :
    jsSet ([] : List (Option α)) i v = List.replicate i none ++ [some v] := by
  induction i with
  | zero => simp [jsSet]
  | succ n ih => simp [jsSet, ih, List.replicate]

theorem jsSet_length (l : List (Option α)) (i : Nat) (v : α) :
    (jsSet l i v).length = max l.length (i + 1) := by
  induction l generalizing i with
  | nil =>
      rw [jsSet_nil]
      simp [Nat.max_eq_right]
  | cons h t ih =>
      cases i with
      | zero => simp [jsSet]
      | succ n =>
          simp [jsSet, ih]
          omega

theorem jsSet_getElem_self (l : List (Option α)) (i : Nat) (v : α) :
    (jsSet l i v)[i]? = some (some v) := by
  induction l generalizing i with
  | nil =>
      rw [jsSet_nil]
      have h := List.getElem?_concat_length (List.replicate i (none : Option α)) (some v)
      simp only [List.length_replicate] at h
      exact h
  | cons h t ih =>
      cases i with
      | zero => simp [jsSet]
      | succ n => simpa [jsSet] using ih n

theorem jsSet_getElem_other (l : List (Option α)) (i j : Nat) (v : α) (h : j ≠ i) :
    (jsSet l i v)[j]? = if j < l.length then l[j]? else
      (if j < i then some none else none) := by
  induction l generalizing i j with
  | nil =>
      rw [jsSet_nil, List.getElem?_append]
      simp only [List.length_nil, List.length_replicate, List.getElem?_replicate,
        Nat.not_lt_zero, if_false]
      by_cases hj : j < i
      · simp [hj]
      · have hj2 : i < j := by omega
        simp only [hj, if_false]
        cases hk : j - i with
        | zero => omega
        | succ m => simp
  | cons hd t ih =>
      cases i with
      | zero =>
          cases j with
          | zero => exact absurd rfl h
          | succ m =>
              simp only [jsSet, List.getElem?_cons_succ, List.length_cons, Nat.not_lt_zero,
                if_false]
              by_cases hm : m < t.length
              · simp [hm, Nat.succ_lt_succ hm]
              · have h2 : ¬ m + 1 < t.length + 1 := by omega
                rw [if_neg h2, List.getElem?_eq_none (by omega)]
      | succ n =>
          cases j with
          | zero => simp [jsSet]
          | succ m =>
              have hrec := ih n m (by omega)
              simp only [jsSet, List.getElem?_cons_succ, List.length_cons]
              rw [hrec]
              by_cases h1 : m < t.length
              · simp [h1, Nat.succ_lt_succ h1]
              · have h2 : ¬ m + 1 < t.length + 1 := by omega
                simp only [h1, if_false, h2, if_false]
                by_cases h3 : m < n
                · simp [h3, Nat.succ_lt_succ h3]
                · have h4 : ¬ m + 1 < n + 1 := by omega
                  simp [h3, h4]

theorem countNamed_nil (id : String) : countNamed [] id = 0 := rfl

theorem countNamed_cons (o : Option RawLevel) (t : List (Option RawLevel)) (id : String) :
    countNamed (o :: t) id =
      (match o with
       | some l => if l.identifier == id then 1 else 0
       | none => 0) + countNamed t id := by
  cases o with
  | none => simp [countNamed, List.filter_cons]
  | some l =>
      by_cases hb : (l.identifier == id) = true
      · simp [countNamed, List.filter_cons, hb, Nat.add_comm]
      · simp [countNamed, List.filter_cons, hb]

theorem countNamed_zero_of_unnamed (ls : List (Option RawLevel)) (id : String)
    (h : ∀ o ∈ ls, ∀ l, o = some l → l.identifier ≠ id) : countNamed ls id = 0 := by
  induction ls with
  | nil => rfl
  | cons o t ih =>
      have ht : countNamed t id = 0 := ih (fun o' ho' => h o' (List.mem_cons_of_mem _ ho'))
      rw [countNamed_cons, ht]
      cases o with
      | none => rfl
      | some l =>
          have hne : l.identifier ≠ id := h (some l) (List.mem_cons_self _ _) l rfl
          simp [beq_eq_false_iff_ne.mpr hne]

theorem countNamed_replicate_none (i : Nat) (id : String) :
    countNamed (List.replicate i (none : Option RawLevel)) id = 0 := by
  apply countNamed_zero_of_unnamed
  intro o ho l hl
  rw [List.eq_of_mem_replicate ho] at hl
  exact absurd hl (by simp)

theorem countNamed_append (l1 l2 : List (Option RawLevel)) (id : String) :
    countNamed (l1 ++ l2) id = countNamed l1 id + countNamed l2 id := by
  simp [countNamed, List.filter_append]

theorem countNamed_jsSet_one (ls : List (Option RawLevel)) (id : String) (i : Nat)
    (v : RawLevel) (hv : v.identifier = id)
    (h : ∀ o ∈ ls, ∀ l, o = some l → l.identifier ≠ id) :
    countNamed (jsSet ls i v) id = 1 := by
  induction ls generalizing i with
  | nil =>
      rw [jsSet_nil, countNamed_append, countNamed_replicate_none]
      rw [countNamed_cons]
      simp [beq_iff_eq.mpr hv, countNamed_nil]
  | cons o t ih =>
      have hrest : ∀ o' ∈ t, ∀ l, o' = some l → l.identifier ≠ id :=
        fun o' ho' => h o' (List.mem_cons_of_mem _ ho')
      cases i with
      | zero =>
          have ht : countNamed t id = 0 := countNamed_zero_of_unnamed t id hrest
          show countNamed (some v :: t) id = 1
          rw [countNamed_cons, ht]
          simp [beq_iff_eq.mpr hv]
      | succ n =>
          have ht := ih n hrest
          show countNamed (o :: jsSet t n v) id = 1
          rw [countNamed_cons, ht]
          cases o with
          | none => rfl
          | some l =>
              have hne : l.identifier ≠ id := h (some l) (List.mem_cons_self _ _) l rfl
              simp [beq_eq_false_iff_ne.mpr hne]

theorem findLevelStubAux_of (id : String) (raws : List RawLevel) (n i : Nat) (stub : RawLevel)
    (hstub : raws[i]? = some stub) (hid : stub.identifier = id)
    (hfirst : ∀ j, j < i → ∀ s, raws[j]? = some s → s.identifier ≠ id) :
    findLevelStubAux id n raws = some (n + i, stub) := by
  induction raws generalizing n i with
  | nil => simp at hstub
  | cons r rest ih =>
      cases i with
      | zero =>
          simp only [List.getElem?_cons_zero, Option.some_inj] at hstub
          subst hstub
          simp [findLevelStubAux, beq_iff_eq.mpr hid]
      | succ m =>
          have hr : r.identifier ≠ id := by
            have := hfirst 0 (Nat.succ_pos m) r (by simp)
            exact this
          have hb : (r.identifier == id) = false := beq_eq_false_iff_ne.mpr hr
          simp only [findLevelStubAux, hb, if_false]
          have hrec := ih (n + 1) m (by simpa using hstub) ?_
          · have harith : n + 1 + m = n + (m + 1) := by omega
            rw [harith] at hrec
            exact hrec
          · intro j hj s hs
            exact hfirst (j + 1) (by omega) s (by simpa using hs)

/-- Claim C1: the claim states that a layer's tileset accessor returns the
Tileset whose numeric uid is the layer's `__tilesetDefUid` whenever the
definitions contain one, and likewise for an entity's display tileset.
The code violates this: the `World` constructor keys `tilesetMap` by the
tileset's string `identifier` (contradicting the field's declared type
`Record<number, Tileset>`), while `Layer.tileset` and the `Entity`
constructor read it by numeric uid.  With a single tileset
`{identifier: "Tiles", uid: 1}`, a layer with `__tilesetDefUid = 1` and an
entity whose definition configures `tilesetId = 1` both resolve to
`undefined`, even though `findTilesetByUid(1)` finds the tileset; only the
absent-uid half of the claim holds. -/
theorem claim_c1_tileset_uid_lookup_bug :
    layerTilesetAccessor (World.ofDefs (some ⟨[⟨"Tiles", 1⟩], [], [⟨10, some 1⟩], []⟩)) (some 1)
        = none
  ∧ entityTilesetAccessor (World.ofDefs (some ⟨[⟨"Tiles", 1⟩], [], [⟨10, some 1⟩], []⟩)) 10
        = none
  ∧ findTilesetByUid (World.ofDefs (some ⟨[⟨"Tiles", 1⟩], [], [⟨10, some 1⟩], []⟩)) 1
        = some ⟨"Tiles", 1⟩
  ∧ layerTilesetAccessor (World.ofDefs (some ⟨[⟨"Tiles", 1⟩], [], [⟨10, some 1⟩], []⟩)) none
        = none :=
  ⟨rfl, rfl, rfl, rfl⟩

/-- Claim C9 (counterexample): `class World` declares no `unloadLevel`
member at all, so the claimed unload operation does not exist. -/
theorem claim_c9_no_unload_counterexample : "unloadLevel" ∉ worldMembers := by
  decide

/-- Claim C9 (amended): `World` provides no `unloadLevel` operation — no
member of `class World` is an unload operation of any name, so a loaded
Level can never be removed from the World-owned indices. -/
theorem claim_c9_no_unload_amended :
    worldMembers.all (fun m => !(("unload".toList).isPrefixOf m.toList)) = true := by
  decide

/-- Claim C3 (counterexample): for a raw Point field whose raw value is the
two-number tuple `[3, 7]`, the claim says the normalizer produces
`{x: 3, y: 7}`; the code instead reads the properties `cx`/`cy` of the raw
value (part_002 revision), which a tuple does not have, producing
`{x: undefined, y: undefined}`. -/
theorem claim_c3_point_tuple_counterexample :
    parseField ⟨"p", "Point", .arr [.num 3, .num 7]⟩ [] "E"
        = .ok ⟨"p", "Point", .obj [("x", .undefined), ("y", .undefined)], none⟩
  ∧ (JSVal.obj [("x", .undefined), ("y", .undefined)] = JSVal.obj [("x", .num 3), ("y", .num 7)]
        → False) := by
  refine ⟨rfl, fun h => ?_⟩
  simp at h

/-- Claim C4 (counterexample): the type string `Array<` does not match the
grammar (an optional `Array< >` wrapper around a scalar name or an enum
reference), yet the normalizer raises no error for it: `FieldTypeRegex` is
unanchored and matches the word run `Array`, so the field is accepted with
the nonsense discriminant `ArrayArray`. -/
theorem claim_c4_grammar_counterexample :
    specFieldTypeGrammar "Array<" = false
  ∧ parseField ⟨"f", "Array<", .null⟩ [] "Ent" = .ok ⟨"f", "ArrayArray", .null, none⟩ :=
  ⟨rfl, rfl⟩

/-! ### Characterizing when `FieldTypeRegex` fails to match (for C4)

The pattern's only mandatory component is the final `(\w+)`, so a match
exists somewhere in the subject iff the subject contains a `\w`
character. -/

theorem wCount_eq_zero_of_no_word (cs : List Char)
    (h : ∀ c ∈ cs, isWordChar c = false) : wCount cs = 0 := by
  cases cs with
  | nil => rfl
  | cons c t =>
      have hc := h c (List.mem_cons_self _ _)
      simp [wCount, List.takeWhile_cons, hc]

theorem wPlus_none_of_no_word (g1 : Option (List Char)) (cs : List Char)
    (h : ∀ c ∈ cs, isWordChar c = false) : wPlus g1 cs = none := by
  rw [wPlus, wCount_eq_zero_of_no_word cs h]
  rfl

theorem dotStar_none_of_no_word (g1 : Option (List Char)) (cs : List Char)
    (h : ∀ c ∈ cs, isWordChar c = false) : dotStar g1 cs = none := by
  induction cs with
  | nil => rfl
  | cons c t ih =>
      have ht : ∀ c' ∈ t, isWordChar c' = false :=
        fun c' hc' => h c' (List.mem_cons_of_mem _ hc')
      have hw := wPlus_none_of_no_word g1 (c :: t) h
      rw [dotStar]
      by_cases hdot : (c == '.')
      · rw [if_pos hdot, ih ht, hw]
      · rw [if_neg hdot, hw]

theorem starFuel_pos (cs : List Char) : 0 < starFuel cs :=
  Nat.mul_pos (Nat.succ_pos _) (Nat.succ_pos _)

theorem enumStarTry_succ_zero (fuel : Nat) (g1 : Option (List Char)) (cs : List Char) :
    enumStarTry (fuel + 1) g1 cs 0 = dotStar g1 cs := rfl

theorem enumStarTry_zero_j_of_pos (fuel : Nat) (hf : 0 < fuel) (g1 : Option (List Char))
    (cs : List Char) : enumStarTry fuel g1 cs 0 = dotStar g1 cs := by
  cases fuel with
  | zero => exact absurd hf (by simp)
  | succ f => rfl

theorem matchAt_none_of_no_word (fuel : Nat) (cs : List Char)
    (h : ∀ c ∈ cs, isWordChar c = false) : matchAt fuel cs = none := by
  cases fuel with
  | zero => rfl
  | succ f =>
      have hpre : ¬ ("Array<".toList).isPrefixOf cs := by
        intro hpre
        have hmem : 'A' ∈ cs :=
          (List.isPrefixOf_iff_prefix.mp hpre).subset (by decide)
        have := h 'A' hmem
        simp [isWordChar] at this
      rw [matchAt, if_neg hpre, wCount_eq_zero_of_no_word cs h,
        enumStarTry_zero_j_of_pos _ (starFuel_pos cs)]
      exact dotStar_none_of_no_word none cs h

theorem wPlus_ne_none_of_head_word (g1 : Option (List Char)) (c : Char) (t : List Char)
    (hc : isWordChar c = true) : wPlus g1 (c :: t) ≠ none := by
  rw [wPlus]
  have : wCount (c :: t) = (t.takeWhile isWordChar).length + 1 := by
    simp [wCount, List.takeWhile_cons, hc]
  rw [this]
  intro hcontra
  rw [g2Try] at hcontra
  cases hcontra

theorem dotStar_ne_none_of_head_word (g1 : Option (List Char)) (c : Char) (t : List Char)
    (hc : isWordChar c = true) : dotStar g1 (c :: t) ≠ none := by
  have hdot : (c == '.') = false := by
    cases hb : (c == '.')
    · rfl
    · have : c = '.' := beq_iff_eq.mp hb
      subst this
      simp [isWordChar] at hc
  rw [dotStar, if_neg (by simp [hdot])]
  exact wPlus_ne_none_of_head_word g1 c t hc

theorem enumStarTry_ne_none (g1 : Option (List Char)) (cs : List Char) (j fuel : Nat)
    (hfuel : j < fuel) (hds : ∀ g1', dotStar g1' cs ≠ none) :
    enumStarTry fuel g1 cs j ≠ none := by
  induction j generalizing g1 fuel with
  | zero =>
      rw [enumStarTry_zero_j_of_pos fuel (by omega)]
      exact hds g1
  | succ m ih =>
      cases fuel with
      | zero => omega
      | succ f =>
          rw [enumStarTry]
          by_cases hpre : ("Enum".toList).isPrefixOf (cs.drop (m + 1))
          · rw [if_pos hpre]
            cases hinner : enumStarTry f (some (cs.take (m + 1))) (cs.drop (m + 5))
                (wCount (cs.drop (m + 5))) with
            | some r => simp
            | none =>
                simp only
                exact ih g1 f (by omega)
          · rw [if_neg hpre]
            exact ih g1 f (by omega)

theorem wCount_le_length (cs : List Char) : wCount cs ≤ cs.length := by
  induction cs with
  | nil => exact Nat.le_refl 0
  | cons c t ih =>
      rw [wCount, List.takeWhile_cons]
      have iht : (t.takeWhile isWordChar).length ≤ t.length := ih
      by_cases hc : isWordChar c = true
      · rw [if_pos hc]
        simp only [List.length_cons]
        omega
      · rw [if_neg hc]
        simp

theorem wCount_lt_starFuel (cs : List Char) : wCount cs < starFuel cs := by
  have h1 := wCount_le_length cs
  have h2 : cs.length + 1 ≤ starFuel cs := by
    rw [starFuel]
    calc cs.length + 1 = (cs.length + 1) * 1 := by omega
    _ ≤ (cs.length + 1) * (cs.length + 1) := Nat.mul_le_mul_left _ (by omega)
  omega

theorem matchAt_ne_none_of_head_word (fuel : Nat) (c : Char) (t : List Char)
    (hc : isWordChar c = true) : matchAt (fuel + 1) (c :: t) ≠ none := by
  have hstar : enumStarTry (starFuel (c :: t)) none (c :: t) (wCount (c :: t)) ≠ none :=
    enumStarTry_ne_none none (c :: t) _ _ (wCount_lt_starFuel (c :: t))
      (fun g1' => dotStar_ne_none_of_head_word g1' c t hc)
  rw [matchAt]
  by_cases hpre : ("Array<".toList).isPrefixOf (c :: t)
  · rw [if_pos hpre]
    cases hrec : matchAt fuel ((c :: t).drop 6) with
    | some r => simp
    | none => simpa using hstar
  · rw [if_neg hpre]
    exact hstar

theorem execAux_eq_none_iff (cs : List Char) :
    execAux cs = none ↔ ∀ c ∈ cs, isWordChar c = false := by
  induction cs with
  | nil => simp [execAux, matchTop, matchAt_none_of_no_word]
  | cons c t ih =>
      rw [execAux]
      constructor
      · intro h
        cases hm : matchTop (c :: t) with
        | some r => rw [hm] at h; cases h
        | none =>
            rw [hm] at h
            have hc : isWordChar c = false := by
              cases hb : isWordChar c
              · rfl
              · exact absurd hm (matchAt_ne_none_of_head_word _ c t hb)
            intro c' hc'
            rcases List.mem_cons.mp hc' with rfl | hmem
            · exact hc
            · exact (ih.mp h) c' hmem
      · intro h
        have hm : matchTop (c :: t) = none :=
          matchAt_none_of_no_word _ (c :: t) h
        rw [hm]
        exact ih.mpr (fun c' hc' => h c' (List.mem_cons_of_mem _ hc'))

theorem fieldTypeExec_none_iff (s : String) :
    fieldTypeExec s = none ↔ hasWordChar s = false := by
  rw [fieldTypeExec, hasWordChar, execAux_eq_none_iff]
  constructor
  · intro h
    rw [List.any_eq_false]
    intro c hc
    simp [h c hc]
  · intro h c hc
    rw [List.any_eq_false] at h
    simpa using h c hc

theorem mapPointify_error_is_typeError (elems : List JSVal) (e : FieldError)
    (h : mapPointify elems = .error e) : e = .typeError := by
  induction elems generalizing e with
  | nil => cases h
  | cons v rest ih =>
      rw [mapPointify] at h
      cases hp : pointifyElem v with
      | error e' =>
          rw [hp] at h
          have he1 : e' = e := Except.error.inj h
          have he2 : e' = FieldError.typeError := by
            cases v <;> simp [pointifyElem] at hp <;> exact hp.symm
          rw [← he1, he2]
      | ok y =>
          rw [hp] at h
          cases hrest : mapPointify rest with
          | error e2 =>
              rw [hrest] at h
              simp only [Except.map] at h
              have h12 := Except.error.inj h
              rw [← h12]
              exact ih e2 hrest
          | ok ys =>
              rw [hrest] at h
              simp [Except.map] at h

theorem mapPointify_ok_of_no_null (elems : List JSVal)
    (h : ∀ v ∈ elems, v ≠ JSVal.null ∧ v ≠ JSVal.undefined) :
    mapPointify elems
      = .ok (elems.map (fun v => .obj [("x", jsGet v "cx"), ("y", jsGet v "cy")])) := by
  induction elems with
  | nil => rfl
  | cons v rest ih =>
      have hv := h v (List.mem_cons_self _ _)
      have hrest := ih (fun v' hv' => h v' (List.mem_cons_of_mem _ hv'))
      have hp : pointifyElem v = .ok (.obj [("x", jsGet v "cx"), ("y", jsGet v "cy")]) := by
        cases v with
        | null => exact absurd rfl hv.1
        | undefined => exact absurd rfl hv.2
        | num n => rfl
        | str s => rfl
        | bool b => rfl
        | arr xs => rfl
        | obj fs => rfl
      rw [mapPointify, hp, hrest]
      rfl

theorem parseField_some_not_invalid (field : FieldInstance)
    (enumMap : List (String × EnumDefinitionRaw)) (entityId : String) (r : MResult)
    (hex : fieldTypeExec field.type = some r) :
    ∀ e1 e2 e3, parseField field enumMap entityId ≠ .error (.invalidType e1 e2 e3) := by
  intro e1 e2 e3 hcontra
  unfold parseField at hcontra
  rw [hex] at hcontra
  simp only at hcontra
  repeat' split at hcontra
  all_goals try simp at hcontra
  all_goals (
    rename_i elems heq
    cases hmp : mapPointify elems with
    | error e' =>
        rw [hmp] at hcontra
        simp only [Except.map] at hcontra
        have he' := Except.error.inj hcontra
        have ht := mapPointify_error_is_typeError elems e' hmp
        rw [ht] at he'
        cases he'
    | ok es =>
        rw [hmp] at hcontra
        simp [Except.map] at hcontra)

theorem hasWordChar_of_mem (s : String) (c : Char) (hc : c ∈ s.toList)
    (hw : isWordChar c = true) : hasWordChar s = true := by
  rw [hasWordChar, List.any_eq_true]
  exact ⟨c, hc, hw⟩

theorem specCore_hasWordChar (s : String) (h : specCore s = true) : hasWordChar s = true := by
  rw [specCore, Bool.or_eq_true] at h
  rcases h with h | h
  · have hdis : s = "Int" ∨ s = "Float" ∨ s = "String" ∨ s = "Bool" ∨ s = "Color"
        ∨ s = "Point" ∨ s = "FilePath" := by
      simpa [specScalarNames, List.contains, List.elem_eq_mem, List.mem_cons] using h
    rcases hdis with rfl | rfl | rfl | rfl | rfl | rfl | rfl <;> decide
  · rw [specEnumRef, Bool.or_eq_true] at h
    rcases h with h | h
    · rw [Bool.and_eq_true] at h
      exact hasWordChar_of_mem s 'L'
        ((List.isPrefixOf_iff_prefix.mp h.1).subset (by decide)) (by decide)
    · rw [Bool.and_eq_true] at h
      exact hasWordChar_of_mem s 'E'
        ((List.isPrefixOf_iff_prefix.mp h.1).subset (by decide)) (by decide)

/-- Claim C4 (amended): the field normalizer raises the structured error —
and it always identifies the field identifier, the owning entity
identifier, and the offending type string — exactly when the type string
contains no word character; every string of the spec's grammar contains a
word character, so grammar strings are always accepted, but so are many
non-grammar strings. -/
theorem claim_c4_word_char_amended (field : FieldInstance)
    (enumMap : List (String × EnumDefinitionRaw)) (entityId : String) :
    (parseField field enumMap entityId
        = .error (.invalidType field.identifier entityId field.type)
      ↔ hasWordChar field.type = false)
  ∧ (∀ e1 e2 e3, parseField field enumMap entityId = .error (.invalidType e1 e2 e3) →
      e1 = field.identifier ∧ e2 = entityId ∧ e3 = field.type)
  ∧ (specFieldTypeGrammar field.type = true → hasWordChar field.type = true) := by
  refine ⟨⟨?_, ?_⟩, ?_, ?_⟩
  · intro herr
    cases hex : fieldTypeExec field.type with
    | none => exact (fieldTypeExec_none_iff field.type).mp hex
    | some r =>
        exact absurd herr (parseField_some_not_invalid field enumMap entityId r hex _ _ _)
  · intro hnw
    have hex := (fieldTypeExec_none_iff field.type).mpr hnw
    unfold parseField
    rw [hex]
  · intro e1 e2 e3 h
    cases hex : fieldTypeExec field.type with
    | some r =>
        exact absurd h (parseField_some_not_invalid field enumMap entityId r hex e1 e2 e3)
    | none =>
        unfold parseField at h
        rw [hex] at h
        have h2 := Except.error.inj h
        injection h2 with ha hb hc
        exact ⟨ha.symm, hb.symm, hc.symm⟩
  · intro hg
    rw [specFieldTypeGrammar, Bool.or_eq_true] at hg
    rcases hg with hg | hg
    · exact specCore_hasWordChar _ hg
    · rw [Bool.and_eq_true, Bool.and_eq_true] at hg
      exact hasWordChar_of_mem _ 'A'
        ((List.isPrefixOf_iff_prefix.mp hg.1.1).subset (by decide)) (by decide)

/-- Claim C4 witness: `!!!` (no word character) raises the structured error
naming the field, entity and type string; grammar strings such as
`Array<Point>` contain a word character, hence are never rejected. -/
theorem claim_c4_word_char_amended_witness :
    parseField ⟨"f", "!!!", .null⟩ [] "E" = .error (.invalidType "f" "E" "!!!")
  ∧ hasWordChar "Array<Point>" = true :=
  ⟨(claim_c4_word_char_amended ⟨"f", "!!!", .null⟩ [] "E").1.mpr (by decide),
   (claim_c4_word_char_amended ⟨"f", "Array<Point>", .null⟩ [] "E").2.2 (by decide)⟩

/-- Claim C3 (amended): for a raw Point field whose raw value is the object
`{cx: a, cy: b}`, the normalizer produces `{x: a, y: b}`; a null raw Point
value passes through as null (absent); and for `Array<Point>`, every
element of the raw array is independently transformed into
`{x: element.cx, y: element.cy}`. -/
theorem claim_c3_point_cxcy_amended (fid : String)
    (em : List (String × EnumDefinitionRaw)) (eid : String) (a b : JSVal)
    (elems : List JSVal) (helems : ∀ v ∈ elems, v ≠ JSVal.null ∧ v ≠ JSVal.undefined) :
    parseField ⟨fid, "Point", .obj [("cx", a), ("cy", b)]⟩ em eid
        = .ok ⟨fid, "Point", .obj [("x", a), ("y", b)], none⟩
  ∧ parseField ⟨fid, "Point", .null⟩ em eid = .ok ⟨fid, "Point", .null, none⟩
  ∧ parseField ⟨fid, "Array<Point>", .arr elems⟩ em eid
      = .ok ⟨fid, "PointArray",
             .arr (elems.map (fun v => .obj [("x", jsGet v "cx"), ("y", jsGet v "cy")])),
             none⟩ := by
  refine ⟨rfl, rfl, ?_⟩
  have hstep : parseField ⟨fid, "Array<Point>", .arr elems⟩ em eid
      = (mapPointify elems).map
          (fun es => ⟨fid, "PointArray", .arr es, none⟩) := rfl
  rw [hstep, mapPointify_ok_of_no_null elems helems]
  rfl

/-- Claim C3 witness: `{cx: 3, cy: 7}` normalizes to `{x: 3, y: 7}`, and a
one-element Point array is transformed element-wise. -/
theorem claim_c3_point_cxcy_amended_witness :
    parseField ⟨"p", "Point", .obj [("cx", .num 3), ("cy", .num 7)]⟩ [] "E"
        = .ok ⟨"p", "Point", .obj [("x", .num 3), ("y", .num 7)], none⟩
  ∧ parseField ⟨"p", "Array<Point>", .arr [.obj [("cx", .num 1), ("cy", .num 2)]]⟩ [] "E"
      = .ok ⟨"p", "PointArray", .arr [.obj [("x", .num 1), ("y", .num 2)]], none⟩ := by
  have h := claim_c3_point_cxcy_amended "p" [] "E" (.num 3) (.num 7)
    [.obj [("cx", .num 1), ("cy", .num 2)]]
    (by
      intro v hv
      rw [List.mem_singleton] at hv
      subst hv
      exact ⟨by simp, by simp⟩)
  refine ⟨h.1, ?_⟩
  rw [h.2.2]
  rfl

/-- Claim C5 (amended): the constructor's switch populates exactly one of
the four payloads for each of the four recognized `type` literals; a `type`
outside the closed set raises no error and silently leaves all four
payloads null. -/
theorem claim_c5_layer_dispatch_amended (w : WorldDefs) (data : LayerInstanceRaw) :
    (data.type = "AutoLayer" →
        layerNew w data = .ok ⟨some data.autoLayerTiles, none, none, none, []⟩)
  ∧ (data.type = "Tiles" →
        layerNew w data = .ok ⟨none, none, some data.gridTiles, none, []⟩)
  ∧ (data.type = "IntGrid" →
        layerNew w data = .ok ⟨none, none, none,
          some (buildIntGrid data.cWid data.cHei data.intGrid),
          buildIntGridValues w data.layerDefUid⟩)
  ∧ (data.type = "Entities" → ∀ l, layerNew w data = .ok l →
        ∃ es, l = ⟨none, some es, none, none, []⟩)
  ∧ (data.type ≠ "AutoLayer" → data.type ≠ "Entities" → data.type ≠ "Tiles" →
      data.type ≠ "IntGrid" →
        layerNew w data = .ok ⟨none, none, none, none, []⟩) := by
  refine ⟨?_, ?_, ?_, ?_, ?_⟩
  · intro ht
    rw [layerNew, ht]
    rfl
  · intro ht
    rw [layerNew, ht]
    rfl
  · intro ht
    rw [layerNew, ht]
    rfl
  · intro ht l h
    rw [layerNew, ht] at h
    simp only at h
    cases hmm : data.entityInstances.mapM (entityNew w) with
    | error e =>
        rw [hmm] at h
        simp [Except.map] at h
    | ok es =>
        rw [hmm] at h
        simp only [Except.map] at h
        exact ⟨es, (Except.ok.inj h).symm⟩
  · intro h1 h2 h3 h4
    rw [layerNew]
    split
    · rename_i heq
      exact absurd heq h1
    · rename_i heq
      exact absurd heq h2
    · rename_i heq
      exact absurd heq h3
    · rename_i heq
      exact absurd heq h4
    · rfl

/-- Claim C5 witness: an `AutoLayer` layer populates exactly the auto-tile
payload; an unrecognized `Weird` layer is accepted with all payloads
null. -/
theorem claim_c5_layer_dispatch_amended_witness :
    layerNew (World.ofDefs none) ⟨"AutoLayer", 0, 0, [], [], [], [], none, 1⟩
        = .ok ⟨some [], none, none, none, []⟩
  ∧ layerNew (World.ofDefs none) ⟨"Weird", 0, 0, [], [], [], [], none, 1⟩
      = .ok ⟨none, none, none, none, []⟩ :=
  ⟨(claim_c5_layer_dispatch_amended (World.ofDefs none)
      ⟨"AutoLayer", 0, 0, [], [], [], [], none, 1⟩).1 rfl,
   (claim_c5_layer_dispatch_amended (World.ofDefs none)
      ⟨"Weird", 0, 0, [], [], [], [], none, 1⟩).2.2.2.2
      (by decide) (by decide) (by decide) (by decide)⟩

/-! ### IntGrid unpacking lemmas (for C6) -/

theorem intGridStep_coord (c W : Nat) : c - c / W * W = c % W := by
  rw [Nat.mod_def, Nat.mul_comm]

theorem intGridCell_inj (c1 c2 W : Nat) (h1 : c1 % W = c2 % W) (h2 : c1 / W = c2 / W) :
    c1 = c2 := by
  have e1 := Nat.div_add_mod c1 W
  have e2 := Nat.div_add_mod c2 W
  rw [h1, h2] at e1
  omega

/-- The column the IntGrid loop writes through (existing column, or a fresh
`new Array(height)`). -/
theorem intGridPut_eq (W H : Nat) (g : List (Option (List (Option Int))))
    (inst : IntGridInstanceRaw) :
    intGridPut W H g inst =
      jsSet g (inst.coordId % W)
        (jsSet
          (match g[inst.coordId % W]? with
           | some (some c) => c
           | _ => List.replicate H (none : Option Int))
          (inst.coordId / W) inst.v) := by
  rw [intGridPut]
  rw [intGridStep_coord]

/-- Reading column `x` right after writing column `x`. -/
theorem cellGet_jsSet_self_col (g : List (Option (List (Option Int)))) (x y : Nat)
    (col : List (Option Int)) :
    cellGet (jsSet g x col) x y = (col[y]?).join := by
  rw [cellGet, jsSet_getElem_self]
  rfl

/-- One iteration of the IntGrid loop writes `v` at the entry's cell. -/
theorem intGridPut_cell_self (g : List (Option (List (Option Int)))) (H : Nat)
    (inst : IntGridInstanceRaw) (W : Nat) :
    cellGet (intGridPut W H g inst) (inst.coordId % W) (inst.coordId / W) = some inst.v := by
  rw [intGridPut_eq, cellGet_jsSet_self_col, jsSet_getElem_self]
  rfl

/-- One iteration of the IntGrid loop leaves every other cell unchanged. -/
theorem intGridPut_cell_other (g : List (Option (List (Option Int)))) (H : Nat)
    (inst : IntGridInstanceRaw) (W x y : Nat)
    (h : ¬(x = inst.coordId % W ∧ y = inst.coordId / W)) :
    cellGet (intGridPut W H g inst) x y = cellGet g x y := by
  rw [intGridPut_eq]
  by_cases hx : x = inst.coordId % W
  · subst hx
    have hy : y ≠ inst.coordId / W := fun hy => h ⟨rfl, hy⟩
    rw [cellGet_jsSet_self_col, jsSet_getElem_other _ _ _ _ hy]
    cases hg : g[inst.coordId % W]? with
    | none =>
        simp only [hg, cellGet, List.length_replicate, List.getElem?_replicate]
        by_cases h1 : y < H
        · simp [h1]
        · by_cases h2 : y < inst.coordId / W
          · simp [h1, h2]
          · simp [h1, h2]
    | some col =>
        cases col with
        | none =>
            simp only [hg, cellGet, List.length_replicate, List.getElem?_replicate]
            by_cases h1 : y < H
            · simp [h1]
            · by_cases h2 : y < inst.coordId / W
              · simp [h1, h2]
              · simp [h1, h2]
        | some c0 =>
            simp only [hg, cellGet]
            by_cases h1 : y < c0.length
            · simp [h1]
            · have hnone : c0[y]? = none := List.getElem?_eq_none (by omega)
              by_cases h2 : y < inst.coordId / W
              · simp [h1, h2, hnone]
              · simp [h1, h2, hnone]
  · rw [cellGet, jsSet_getElem_other _ _ _ _ hx, cellGet]
    by_cases h1 : x < g.length
    · simp [h1]
    · have hnone : g[x]? = none := List.getElem?_eq_none (by omega)
      by_cases h2 : x < inst.coordId % W
      · simp [h1, h2, hnone]
      · simp [h1, h2, hnone]

/-- After the whole IntGrid loop (from an arbitrary intermediate grid):
cells of the processed entries hold their values, all other cells keep
their prior contents. -/
theorem intGridFold_spec (W H : Nat) (entries : List IntGridInstanceRaw)
    (hnd : (entries.map (fun e => e.coordId)).Nodup) :
    ∀ g : List (Option (List (Option Int))),
      (∀ e ∈ entries,
        cellGet (entries.foldl (intGridPut W H) g) (e.coordId % W) (e.coordId / W) = some e.v)
    ∧ (∀ x y, (∀ e ∈ entries, ¬(x = e.coordId % W ∧ y = e.coordId / W)) →
        cellGet (entries.foldl (intGridPut W H) g) x y = cellGet g x y) := by
  induction entries with
  | nil => exact fun g => ⟨fun e he => absurd he (by simp), fun x y _ => rfl⟩
  | cons e0 rest ih =>
      have hnd' : (rest.map (fun e => e.coordId)).Nodup := (List.nodup_cons.mp hnd).2
      have hnotin : e0.coordId ∉ rest.map (fun e => e.coordId) := (List.nodup_cons.mp hnd).1
      intro g
      constructor
      · intro e he
        rcases List.mem_cons.mp he with rfl | he'
        · have hother : ∀ e' ∈ rest,
              ¬((e.coordId % W) = e'.coordId % W ∧ (e.coordId / W) = e'.coordId / W) := by
            intro e' he' hpair
            exact hnotin (by
              have heq : e.coordId = e'.coordId := intGridCell_inj _ _ W hpair.1 hpair.2
              rw [heq]
              exact List.mem_map_of_mem _ he')
          have h2 := (ih hnd' (intGridPut W H g e)).2 (e.coordId % W) (e.coordId / W) hother
          rw [List.foldl_cons, h2]
          exact intGridPut_cell_self g H e W
        · exact (ih hnd' (intGridPut W H g e0)).1 e he'
      · intro x y hxy
        have h2 := (ih hnd' (intGridPut W H g e0)).2 x y
          (fun e' he' => hxy e' (List.mem_cons_of_mem _ he'))
        rw [List.foldl_cons, h2]
        exact intGridPut_cell_other g H e0 W x y (hxy e0 (List.mem_cons_self _ _))

/-- The initial `new Array(width)` grid has no cell values at all. -/
theorem cellGet_replicate_none (W x y : Nat) :
    cellGet (List.replicate W (none : Option (List (Option Int)))) x y = none := by
  rw [cellGet, List.getElem?_replicate]
  by_cases h : x < W
  · simp [h]
  · simp [h]

/-- Claim C6: for an IntGrid layer of grid width W and height H built from
raw sparse entries `{coordId, v}` (one entry per cell, as the sparse format
guarantees), the constructed dense grid satisfies
`grid[coordId mod W][floor(coordId / W)] = v` for every raw entry, and
every cell `(x, y)` not mentioned by any raw entry holds the default
(absent) value — JS array holes, read back as `undefined`. -/
theorem claim_c6_intgrid_unpacking
    (w : WorldDefs) (data : LayerInstanceRaw) (htype : data.type = "IntGrid")
    (hnd : (data.intGrid.map (fun e => e.coordId)).Nodup) :
    ∃ l, layerNew w data = .ok l
      ∧ l.intGrid = some (buildIntGrid data.cWid data.cHei data.intGrid)
      ∧ (∀ e ∈ data.intGrid,
          cellGet (buildIntGrid data.cWid data.cHei data.intGrid)
            (e.coordId % data.cWid) (e.coordId / data.cWid) = some e.v)
      ∧ (∀ x y, (∀ e ∈ data.intGrid,
            ¬(x = e.coordId % data.cWid ∧ y = e.coordId / data.cWid)) →
          cellGet (buildIntGrid data.cWid data.cHei data.intGrid) x y = none) := by
  refine ⟨⟨none, none, none, some (buildIntGrid data.cWid data.cHei data.intGrid),
           buildIntGridValues w data.layerDefUid⟩, ?_, rfl, ?_, ?_⟩
  · rw [layerNew, htype]
    rfl
  · intro e he
    exact (intGridFold_spec data.cWid data.cHei data.intGrid hnd _).1 e he
  · intro x y hxy
    rw [buildIntGrid]
    rw [(intGridFold_spec data.cWid data.cHei data.intGrid hnd _).2 x y hxy]
    exact cellGet_replicate_none _ x y

/-- Claim C6 witness: a 2×2 grid from entries `{coordId 3, v 5}` and
`{coordId 0, v 2}`. -/
theorem claim_c6_intgrid_unpacking_witness :
    ∃ l, layerNew (World.ofDefs none) ⟨"IntGrid", 2, 2, [], [], [], [⟨3, 5⟩, ⟨0, 2⟩], none, 7⟩
        = .ok l
      ∧ l.intGrid = some (buildIntGrid 2 2 [⟨3, 5⟩, ⟨0, 2⟩])
      ∧ (∀ e ∈ ([⟨3, 5⟩, ⟨0, 2⟩] : List IntGridInstanceRaw),
          cellGet (buildIntGrid 2 2 [⟨3, 5⟩, ⟨0, 2⟩]) (e.coordId % 2) (e.coordId / 2)
            = some e.v)
      ∧ (∀ x y, (∀ e ∈ ([⟨3, 5⟩, ⟨0, 2⟩] : List IntGridInstanceRaw),
            ¬(x = e.coordId % 2 ∧ y = e.coordId / 2)) →
          cellGet (buildIntGrid 2 2 [⟨3, 5⟩, ⟨0, 2⟩]) x y = none) :=
  claim_c6_intgrid_unpacking (World.ofDefs none)
    ⟨"IntGrid", 2, 2, [], [], [], [⟨3, 5⟩, ⟨0, 2⟩], none, 7⟩ rfl (by decide)

/-! ### Neighbour resolution lemmas (for C2) -/

theorem resolveNeighbours_ok (levels : List RawLevel) (ownerId : String)
    (raw : List NeighbourRaw) (ns : List ResolvedNeighbour)
    (h : resolveNeighbours levels ownerId raw = .ok ns) :
    ns.length = raw.length ∧
    ∀ i (h1 : i < ns.length) (h2 : i < raw.length),
      (ns.get ⟨i, h1⟩).dir = (raw.get ⟨i, h2⟩).dir ∧
      findLevelByUid levels ((raw.get ⟨i, h2⟩).levelUid) = some ((ns.get ⟨i, h1⟩).level) := by
  induction raw generalizing ns with
  | nil =>
      simp only [resolveNeighbours] at h
      obtain rfl : ([] : List ResolvedNeighbour) = ns := Except.ok.inj h
      exact ⟨rfl, fun i h1 h2 => absurd h1 (by simp)⟩
  | cons n rest ih =>
      simp only [resolveNeighbours] at h
      cases hfind : findLevelByUid levels n.levelUid with
      | none => rw [hfind] at h; cases h
      | some l =>
          rw [hfind] at h
          cases hres : resolveNeighbours levels ownerId rest with
          | error e => rw [hres] at h; simp [Except.map] at h
          | ok ns' =>
              rw [hres] at h
              simp only [Except.map] at h
              obtain rfl : ResolvedNeighbour.mk n.dir l :: ns' = ns := Except.ok.inj h
              obtain ⟨hlen, hidx⟩ := ih ns' hres
              refine ⟨by simp [hlen], ?_⟩
              intro i h1 h2
              cases i with
              | zero => exact ⟨rfl, hfind⟩
              | succ m =>
                  exact hidx m (by simpa using h1) (by simpa using h2)

theorem resolveNeighbours_error (levels : List RawLevel) (ownerId : String)
    (raw : List NeighbourRaw) (e : NeighbourErr)
    (h : resolveNeighbours levels ownerId raw = .error e) :
    e.levelId = ownerId ∧
    ∃ n ∈ raw, findLevelByUid levels n.levelUid = none ∧ e.missingUid = n.levelUid := by
  induction raw with
  | nil => simp only [resolveNeighbours] at h; cases h
  | cons n rest ih =>
      simp only [resolveNeighbours] at h
      cases hfind : findLevelByUid levels n.levelUid with
      | none =>
          rw [hfind] at h
          obtain rfl : NeighbourErr.mk n.levelUid ownerId = e := Except.error.inj h
          exact ⟨rfl, n, List.mem_cons_self _ _, hfind, rfl⟩
      | some l =>
          rw [hfind] at h
          cases hres : resolveNeighbours levels ownerId rest with
          | ok ns' => rw [hres] at h; simp [Except.map] at h
          | error e' =>
              rw [hres] at h
              simp only [Except.map] at h
              obtain rfl : e' = e := Except.error.inj h
              obtain ⟨h1, n', hn', h2, h3⟩ := ih hres
              exact ⟨h1, n', List.mem_cons_of_mem _ hn', h2, h3⟩

/-- Claim C2: on first access (empty cache), the neighbours accessor
resolves every raw neighbour entry through `world.findLevelByUid`; on
success the result has exactly one entry per raw entry, in order, each
carrying the raw direction tag and the resolved Level, and it is stored in
the cache so that a second access — against *any* world, showing that no
re-resolution happens — returns the cached list unchanged; if some uid is
not found, a structured error names the (first) missing uid and the owning
level's identifier. -/
theorem claim_c2_neighbours_lazy_memoized
    (levels : List RawLevel) (st : LevelState) (hfresh : st.cache = none) :
    (∀ ns st2, getNeighbours levels st = .ok (ns, st2) →
        ns.length = st.data.neighbours.length
      ∧ (∀ i (h1 : i < ns.length) (h2 : i < st.data.neighbours.length),
            (ns.get ⟨i, h1⟩).dir = (st.data.neighbours.get ⟨i, h2⟩).dir
          ∧ findLevelByUid levels ((st.data.neighbours.get ⟨i, h2⟩).levelUid)
              = some ((ns.get ⟨i, h1⟩).level))
      ∧ st2 = { st with cache := some ns }
      ∧ (∀ levels2, getNeighbours levels2 st2 = .ok (ns, st2)))
  ∧ (∀ e, getNeighbours levels st = .error e →
        e.levelId = st.data.identifier
      ∧ ∃ n ∈ st.data.neighbours, findLevelByUid levels n.levelUid = none
          ∧ e.missingUid = n.levelUid) := by
  constructor
  · intro ns st2 h
    rw [getNeighbours, hfresh] at h
    cases hres : resolveNeighbours levels st.data.identifier st.data.neighbours with
    | error e => rw [hres] at h; simp [Except.map] at h
    | ok ns' =>
        rw [hres] at h
        simp only [Except.map] at h
        have hpair := Except.ok.inj h
        obtain ⟨rfl, rfl⟩ : ns' = ns ∧ ({ st with cache := some ns' } : LevelState) = st2 := by
          exact ⟨congrArg Prod.fst hpair, congrArg Prod.snd hpair⟩
        obtain ⟨hlen, hidx⟩ := resolveNeighbours_ok levels st.data.identifier _ _ hres
        refine ⟨hlen, hidx, rfl, ?_⟩
        intro levels2
        rw [getNeighbours]
  · intro e h
    rw [getNeighbours, hfresh] at h
    cases hres : resolveNeighbours levels st.data.identifier st.data.neighbours with
    | ok ns' => rw [hres] at h; simp [Except.map] at h
    | error e' =>
        rw [hres] at h
        simp only [Except.map] at h
        obtain rfl : e' = e := Except.error.inj h
        exact resolveNeighbours_error levels st.data.identifier _ _ hres

/-- Claim C2 witness: a level `L1` with one raw neighbour entry pointing at
`L2`, resolved on first access and served from the cache (against a
different world) on the second. -/
theorem claim_c2_neighbours_lazy_memoized_witness :
    ([⟨"n", ⟨"L2", 2, none, []⟩⟩] : List ResolvedNeighbour).length
        = ([⟨"n", 2⟩] : List NeighbourRaw).length
  ∧ (∀ levels2,
      getNeighbours levels2
          ⟨⟨"L1", 1, none, [⟨"n", 2⟩]⟩, some [⟨"n", ⟨"L2", 2, none, []⟩⟩]⟩
        = .ok ([⟨"n", ⟨"L2", 2, none, []⟩⟩],
               ⟨⟨"L1", 1, none, [⟨"n", 2⟩]⟩, some [⟨"n", ⟨"L2", 2, none, []⟩⟩]⟩)) := by
  have h := (claim_c2_neighbours_lazy_memoized [⟨"L2", 2, none, []⟩]
      ⟨⟨"L1", 1, none, [⟨"n", 2⟩]⟩, none⟩ rfl).1
    [⟨"n", ⟨"L2", 2, none, []⟩⟩]
    ⟨⟨"L1", 1, none, [⟨"n", 2⟩]⟩, some [⟨"n", ⟨"L2", 2, none, []⟩⟩]⟩ rfl
  exact ⟨h.1, h.2.2.2⟩

/-- Claim C10: on a fresh external-levels World (no levels loaded), a
successful `loadLevel(id)` whose stub sits at zero-based position `i` of
the raw level list stores the loaded Level at index `i` of `world.levels`
and its identifier at index `i` of `world.levelIds`; consequently both
arrays have length `i + 1` with positions `0 .. i-1` left as holes, and
only one position actually holds a Level. -/
theorem claim_c10_first_load_creates_holes
    (raws : List RawLevel) (fetchL : String → RawLevel) (id : String) (i : Nat)
    (stub : RawLevel)
    (hstub : raws[i]? = some stub) (hid : stub.identifier = id)
    (hfirst : ∀ j, j < i → ∀ s, raws[j]? = some s → s.identifier ≠ id) :
    ∃ w1, loadLevel ⟨raws, [], [], []⟩ fetchL id = .ok (w1, 1)
      ∧ w1.levels.length = i + 1
      ∧ w1.levelIds.length = i + 1
      ∧ w1.levels[i]? = some (some (fetchL (stub.externalRelPath.getD "")))
      ∧ w1.levelIds[i]? = some (some (fetchL (stub.externalRelPath.getD "")).identifier)
      ∧ (∀ j, j < i → w1.levels[j]? = some none ∧ w1.levelIds[j]? = some none)
      ∧ (w1.levels.filter Option.isSome).length = 1 := by
  have hfind : findLevelStub raws id = some (i, stub) := by
    have h0 := findLevelStubAux_of id raws 0 i stub hstub hid hfirst
    rw [Nat.zero_add] at h0
    exact h0
  have h1 : loadLevel ⟨raws, [], [], []⟩ fetchL id =
      .ok (⟨raws,
            jsRecordSet [] (fetchL (stub.externalRelPath.getD "")).identifier
              (fetchL (stub.externalRelPath.getD "")),
            jsSet [] i (fetchL (stub.externalRelPath.getD "")).identifier,
            jsSet [] i (fetchL (stub.externalRelPath.getD ""))⟩, 1) := by
    rw [loadLevel]
    simp [jsRecordGet, List.find?, hfind]
  refine ⟨_, h1, ?_, ?_, ?_, ?_, ?_, ?_⟩
  · rw [jsSet_length]
    simp
  · rw [jsSet_length]
    simp
  · exact jsSet_getElem_self _ i _
  · exact jsSet_getElem_self _ i _
  · intro j hj
    constructor
    · rw [jsSet_getElem_other _ i j _ (by omega)]
      simp [hj]
    · rw [jsSet_getElem_other _ i j _ (by omega)]
      simp [hj]
  · show ((jsSet [] i (fetchL (stub.externalRelPath.getD ""))).filter Option.isSome).length = 1
    rw [jsSet_nil, List.filter_append]
    have hrep : (List.replicate i (none : Option RawLevel)).filter Option.isSome = [] := by
      induction i with
      | zero => rfl
      | succ n ih => simp [List.replicate, List.filter_cons, ih]
    simp [hrep, List.filter_cons]

/-- Claim C10 witness: a fresh three-stub world, loading the stub at
index 1. -/
theorem claim_c10_first_load_creates_holes_witness :
    ∃ w1, loadLevel ⟨[⟨"Level0", 0, some "l0", []⟩, ⟨"Level1", 1, some "l1", []⟩],
        [], [], []⟩ (fun _ => ⟨"Level1", 1, none, []⟩) "Level1" = .ok (w1, 1)
      ∧ w1.levels.length = 2
      ∧ w1.levelIds.length = 2
      ∧ w1.levels[1]? = some (some ⟨"Level1", 1, none, []⟩)
      ∧ w1.levelIds[1]? = some (some "Level1")
      ∧ (∀ j, j < 1 → w1.levels[j]? = some none ∧ w1.levelIds[j]? = some none)
      ∧ (w1.levels.filter Option.isSome).length = 1 :=
  claim_c10_first_load_creates_holes
    [⟨"Level0", 0, some "l0", []⟩, ⟨"Level1", 1, some "l1", []⟩]
    (fun _ => ⟨"Level1", 1, none, []⟩) "Level1" 1 ⟨"Level1", 1, some "l1", []⟩
    (by decide) (by decide)
    (by
      intro j hj s hs
      interval_cases j
      · simp only [List.getElem?_cons_zero, Option.some_inj] at hs
        subst hs
        decide)

/-- Claim C7: on an external-levels World where `id` is not yet loaded,
its stub exists, the fetched level carries the same identifier, and no
loaded level of that name exists, awaiting `loadLevel id` twice in
sequence leaves exactly one Level named `id` in `world.levels` and in the
level index map, and the second call performs no fetch and does not change
the world (idempotence). -/
theorem claim_c7_load_level_idempotent
    (w : ExtWorld) (fetchL : String → RawLevel) (id : String) (i : Nat) (stub : RawLevel)
    (hnotloaded : jsRecordGet w.levelMap id = none)
    (hstub : findLevelStub w.rawLevels id = some (i, stub))
    (hfid : (fetchL (stub.externalRelPath.getD "")).identifier = id)
    (hnolevel : ∀ o ∈ w.levels, ∀ l, o = some l → l.identifier ≠ id) :
    ∃ w1, loadLevel w fetchL id = .ok (w1, 1)
      ∧ loadLevel w1 fetchL id = .ok (w1, 0)
      ∧ jsRecordGet w1.levelMap id = some (fetchL (stub.externalRelPath.getD ""))
      ∧ countNamed w1.levels id = 1 := by
  have h1 : loadLevel w fetchL id =
      .ok ({ w with
              levelMap := jsRecordSet w.levelMap
                (fetchL (stub.externalRelPath.getD "")).identifier
                (fetchL (stub.externalRelPath.getD "")),
              levelIds := jsSet w.levelIds i
                (fetchL (stub.externalRelPath.getD "")).identifier,
              levels := jsSet w.levels i (fetchL (stub.externalRelPath.getD "")) }, 1) := by
    rw [loadLevel]
    rw [hnotloaded]
    simp only [Option.isSome_none, Bool.false_eq_true, if_false, hstub]
  have hget : jsRecordGet (jsRecordSet w.levelMap
      (fetchL (stub.externalRelPath.getD "")).identifier
      (fetchL (stub.externalRelPath.getD ""))) id
      = some (fetchL (stub.externalRelPath.getD "")) := by
    rw [hfid]
    exact jsRecordGet_set_self _ _ _
  refine ⟨_, h1, ?_, hget, ?_⟩
  · rw [loadLevel]
    simp only [hget, Option.isSome_some, if_true]
  · exact countNamed_jsSet_one w.levels id i _ hfid hnolevel

/-- Claim C7 witness: a fresh world with one external stub, loaded twice. -/
theorem claim_c7_load_level_idempotent_witness :
    ∃ w1, loadLevel ⟨[⟨"Level1", 1, some "l1", []⟩], [], [], []⟩
        (fun _ => ⟨"Level1", 1, none, []⟩) "Level1" = .ok (w1, 1)
      ∧ loadLevel w1 (fun _ => ⟨"Level1", 1, none, []⟩) "Level1" = .ok (w1, 0)
      ∧ jsRecordGet w1.levelMap "Level1" = some ⟨"Level1", 1, none, []⟩
      ∧ countNamed w1.levels "Level1" = 1 :=
  claim_c7_load_level_idempotent
    ⟨[⟨"Level1", 1, some "l1", []⟩], [], [], []⟩ (fun _ => ⟨"Level1", 1, none, []⟩)
    "Level1" 0 ⟨"Level1", 1, some "l1", []⟩
    rfl (by decide) rfl (by intro o ho; simp at ho)

/-! ### `loadLevels` fold lemmas (for C8) -/

theorem applyLoadedLevel_levels_length (fetchL : String → RawLevel) (acc : ExtWorld)
    (t : Nat × String) :
    (applyLoadedLevel fetchL acc t).levels.length = max acc.levels.length (t.1 + 1) := by
  simp only [applyLoadedLevel]
  exact jsSet_length _ _ _

theorem foldLevels_length_le (fetchL : String → RawLevel) (N : Nat)
    (tasks : List (Nat × String)) :
    ∀ acc : ExtWorld, (∀ t ∈ tasks, t.1 < N) → acc.levels.length ≤ N →
      ((tasks.foldl (applyLoadedLevel fetchL) acc)).levels.length ≤ N := by
  induction tasks with
  | nil => intro acc _ h; simpa using h
  | cons t rest ih =>
      intro acc hts hacc
      rw [List.foldl_cons]
      apply ih
      · intro t' ht'
        exact hts t' (List.mem_cons_of_mem _ ht')
      · rw [applyLoadedLevel_levels_length]
        have := hts t (List.mem_cons_self _ _)
        omega

theorem foldLevels_length_ge (fetchL : String → RawLevel) (tasks : List (Nat × String)) :
    ∀ (acc : ExtWorld) (K : Nat), K ≤ acc.levels.length →
      K ≤ ((tasks.foldl (applyLoadedLevel fetchL) acc)).levels.length := by
  induction tasks with
  | nil => intro acc K h; simpa using h
  | cons t rest ih =>
      intro acc K h
      rw [List.foldl_cons]
      apply ih
      rw [applyLoadedLevel_levels_length]
      omega

theorem foldLevels_length_ge_of_mem (fetchL : String → RawLevel)
    (tasks : List (Nat × String)) :
    ∀ (acc : ExtWorld) (i : Nat) (rel : String), (i, rel) ∈ tasks →
      i + 1 ≤ ((tasks.foldl (applyLoadedLevel fetchL) acc)).levels.length := by
  induction tasks with
  | nil => intro acc i rel h; simp at h
  | cons t rest ih =>
      intro acc i rel hmem
      rw [List.foldl_cons]
      rcases List.mem_cons.mp hmem with heq | hmem'
      · apply foldLevels_length_ge
        rw [applyLoadedLevel_levels_length, ← heq]
        omega
      · exact ih _ i rel hmem'

theorem foldLevels_presence (fetchL : String → RawLevel) (tasks : List (Nat × String)) :
    ∀ (acc : ExtWorld) (k : String), (jsRecordGet acc.levelMap k).isSome = true →
      (jsRecordGet ((tasks.foldl (applyLoadedLevel fetchL) acc)).levelMap k).isSome = true := by
  induction tasks with
  | nil => intro acc k h; simpa using h
  | cons t rest ih =>
      intro acc k h
      rw [List.foldl_cons]
      apply ih
      simp only [applyLoadedLevel]
      exact jsRecordGet_set_isSome _ _ _ _ h

theorem foldLevels_task_key (fetchL : String → RawLevel) (tasks : List (Nat × String)) :
    ∀ (acc : ExtWorld) (i : Nat) (rel : String), (i, rel) ∈ tasks →
      (jsRecordGet ((tasks.foldl (applyLoadedLevel fetchL) acc)).levelMap
        (fetchL rel).identifier).isSome = true := by
  induction tasks with
  | nil => intro acc i rel h; simp at h
  | cons t rest ih =>
      intro acc i rel hmem
      rw [List.foldl_cons]
      rcases List.mem_cons.mp hmem with heq | hmem'
      · apply foldLevels_presence
        simp only [applyLoadedLevel, ← heq]
        rw [jsRecordGet_set_self]
        rfl
      · exact ih _ i rel hmem'

theorem tasksAux_index_lt (m : List (String × RawLevel)) (raws : List RawLevel) :
    ∀ (n : Nat) (t : Nat × String),
      t ∈ (List.enumFrom n raws).filterMap
        (fun p => if (jsRecordGet m p.2.identifier).isSome then none
                  else p.2.externalRelPath.map (fun rel => (p.1, rel))) →
      t.1 < n + raws.length := by
  induction raws with
  | nil => intro n t ht; simp [List.enumFrom] at ht
  | cons r rest ih =>
      intro n t ht
      simp only [List.enumFrom, List.filterMap_cons] at ht
      by_cases hs : (jsRecordGet m r.identifier).isSome
      · rw [if_pos hs] at ht
        have := ih (n + 1) t ht
        simp only [List.length_cons]
        omega
      · rw [if_neg hs] at ht
        cases hrel : r.externalRelPath with
        | none =>
            rw [hrel] at ht
            simp only [Option.map_none'] at ht
            have := ih (n + 1) t ht
            simp only [List.length_cons]
            omega
        | some rel =>
            rw [hrel] at ht
            simp only [Option.map_some'] at ht
            rcases List.mem_cons.mp ht with rfl | ht'
            · simp only [List.length_cons]
              omega
            · have := ih (n + 1) t ht'
              simp only [List.length_cons]
              omega

theorem tasksAux_count (m : List (String × RawLevel)) (raws : List RawLevel)
    (hext : ∀ s ∈ raws, s.externalRelPath.isSome = true) :
    ∀ n : Nat,
      ((List.enumFrom n raws).filterMap
        (fun p => if (jsRecordGet m p.2.identifier).isSome then none
                  else p.2.externalRelPath.map (fun rel => (p.1, rel)))).length
      = (raws.filter (fun s => !(jsRecordGet m s.identifier).isSome)).length := by
  induction raws with
  | nil => intro n; rfl
  | cons r rest ih =>
      intro n
      have hrest : ∀ s ∈ rest, s.externalRelPath.isSome = true :=
        fun s hs => hext s (List.mem_cons_of_mem _ hs)
      simp only [List.enumFrom, List.filterMap_cons, List.filter_cons]
      by_cases hs : (jsRecordGet m r.identifier).isSome
      · rw [if_pos hs]
        simp only [hs, Bool.not_true, if_false]
        exact ih hrest (n + 1)
      · rw [if_neg hs]
        obtain ⟨rel, hrel⟩ := Option.isSome_iff_exists.mp (hext r (List.mem_cons_self _ _))
        rw [hrel]
        simp only [Option.map_some', List.length_cons]
        have hb : (jsRecordGet m r.identifier).isSome = false := by
          cases hb2 : (jsRecordGet m r.identifier).isSome
          · rfl
          · exact absurd hb2 hs
        simp only [hb, Bool.not_false, if_true, List.length_cons]
        rw [ih hrest (n + 1)]

theorem tasksAux_mem (m : List (String × RawLevel)) (raws : List RawLevel) :
    ∀ (n i : Nat) (s : RawLevel) (rel : String),
      raws[i]? = some s →
      jsRecordGet m s.identifier = none →
      s.externalRelPath = some rel →
      (n + i, rel) ∈ (List.enumFrom n raws).filterMap
        (fun p => if (jsRecordGet m p.2.identifier).isSome then none
                  else p.2.externalRelPath.map (fun r => (p.1, r))) := by
  induction raws with
  | nil => intro n i s rel hget; simp at hget
  | cons r rest ih =>
      intro n i s rel hget hnl hrel
      simp only [List.enumFrom, List.filterMap_cons]
      cases i with
      | zero =>
          simp only [List.getElem?_cons_zero, Option.some_inj] at hget
          subst hget
          rw [hnl]
          simp only [Option.isSome_none, Bool.false_eq_true, if_false, hrel,
            Option.map_some']
          exact List.mem_cons_self _ _
      | succ j =>
          have hmem := ih (n + 1) j s rel (by simpa using hget) hnl hrel
          have harith : n + 1 + j = n + (j + 1) := by omega
          rw [harith] at hmem
          by_cases hs : (jsRecordGet m r.identifier).isSome
          · rw [if_pos hs]
            exact hmem
          · rw [if_neg hs]
            cases hrel2 : r.externalRelPath with
            | none => simpa [Option.map_none'] using hmem
            | some rel2 =>
                simp only [Option.map_some']
                exact List.mem_cons_of_mem _ hmem

/-- Claim C8: after `loadLevels()` completes on an external-levels World
with N stubs — all external, the fetched level of each stub carrying the
stub's identifier, and the already-loaded state consistent (a loaded stub
occupies its slot in `world.levels`) — `world.levels` has length N, every
stub identifier is a key of the level map, and the number of fetches
performed equals the number of stubs that were not already loaded (loaded
stubs are skipped). -/
theorem claim_c8_load_levels_completeness
    (w : ExtWorld) (fetchL : String → RawLevel) (N : Nat)
    (hN : w.rawLevels.length = N)
    (hext : ∀ s ∈ w.rawLevels, s.externalRelPath.isSome = true)
    (hfetch : ∀ s ∈ w.rawLevels,
      (fetchL (s.externalRelPath.getD "")).identifier = s.identifier)
    (hcons : ∀ i s, w.rawLevels[i]? = some s →
        (jsRecordGet w.levelMap s.identifier).isSome = true → i < w.levels.length)
    (hlen : w.levels.length ≤ N) :
    (loadLevels w fetchL).1.levels.length = N
  ∧ (∀ s ∈ w.rawLevels,
      (jsRecordGet (loadLevels w fetchL).1.levelMap s.identifier).isSome = true)
  ∧ (loadLevels w fetchL).2
      = (w.rawLevels.filter (fun s => !(jsRecordGet w.levelMap s.identifier).isSome)).length := by
  have htasks : loadLevelsTasks w
      = (List.enumFrom 0 w.rawLevels).filterMap
          (fun p => if (jsRecordGet w.levelMap p.2.identifier).isSome then none
                    else p.2.externalRelPath.map (fun rel => (p.1, rel))) := rfl
  refine ⟨?_, ?_, ?_⟩
  · apply Nat.le_antisymm
    · apply foldLevels_length_le fetchL N _ w ?_ hlen
      intro t ht
      rw [htasks] at ht
      have := tasksAux_index_lt w.levelMap w.rawLevels 0 t ht
      omega
    · cases hNc : N with
      | zero => simp
      | succ M =>
          have hMlt : M < w.rawLevels.length := by omega
          have hget : w.rawLevels[M]? = some w.rawLevels[M] :=
            List.getElem?_eq_getElem hMlt
          have hmem : w.rawLevels[M] ∈ w.rawLevels := List.getElem_mem hMlt
          by_cases hload : (jsRecordGet w.levelMap (w.rawLevels[M]).identifier).isSome = true
          · have hM := hcons M _ hget hload
            apply foldLevels_length_ge
            omega
          · obtain ⟨rel, hrel⟩ := Option.isSome_iff_exists.mp (hext _ hmem)
            have hnl : jsRecordGet w.levelMap (w.rawLevels[M]).identifier = none := by
              cases hq : jsRecordGet w.levelMap (w.rawLevels[M]).identifier with
              | none => rfl
              | some v => rw [hq] at hload; exact absurd rfl hload
            have hmemT := tasksAux_mem w.levelMap w.rawLevels 0 M _ rel hget hnl hrel
            rw [Nat.zero_add] at hmemT
            rw [← htasks] at hmemT
            exact foldLevels_length_ge_of_mem fetchL _ w M rel hmemT
  · intro s hs
    by_cases hload : (jsRecordGet w.levelMap s.identifier).isSome = true
    · exact foldLevels_presence fetchL _ w s.identifier hload
    · obtain ⟨rel, hrel⟩ := Option.isSome_iff_exists.mp (hext s hs)
      have hnl : jsRecordGet w.levelMap s.identifier = none := by
        cases hq : jsRecordGet w.levelMap s.identifier with
        | none => rfl
        | some v => rw [hq] at hload; exact absurd rfl hload
      obtain ⟨i, hget⟩ := List.getElem?_of_mem hs
      have hmemT := tasksAux_mem w.levelMap w.rawLevels 0 i s rel hget hnl hrel
      rw [Nat.zero_add] at hmemT
      rw [← htasks] at hmemT
      have hkey := foldLevels_task_key fetchL _ w i rel hmemT
      have hid : (fetchL rel).identifier = s.identifier := by
        have := hfetch s hs
        rw [hrel] at this
        exact this
      rw [hid] at hkey
      exact hkey
  · show (loadLevelsTasks w).length = _
    rw [htasks]
    exact tasksAux_count w.levelMap w.rawLevels hext 0

/-- Claim C8 witness: a two-stub world with one stub already loaded —
`loadLevels` fetches only the missing one, after which both identifiers
are present and `world.levels` has length 2. -/
theorem claim_c8_load_levels_completeness_witness :
    (loadLevels
        ⟨[⟨"Level0", 0, some "l0", []⟩, ⟨"Level1", 1, some "l1", []⟩],
         [("Level0", ⟨"Level0", 0, none, []⟩)],
         [some "Level0"], [some ⟨"Level0", 0, none, []⟩]⟩
        (fun p => if p == "l0" then ⟨"Level0", 0, none, []⟩ else ⟨"Level1", 1, none, []⟩)).1.levels.length
        = 2
  ∧ (∀ s ∈ ([⟨"Level0", 0, some "l0", []⟩, ⟨"Level1", 1, some "l1", []⟩] : List RawLevel),
      (jsRecordGet (loadLevels
        ⟨[⟨"Level0", 0, some "l0", []⟩, ⟨"Level1", 1, some "l1", []⟩],
         [("Level0", ⟨"Level0", 0, none, []⟩)],
         [some "Level0"], [some ⟨"Level0", 0, none, []⟩]⟩
        (fun p => if p == "l0" then ⟨"Level0", 0, none, []⟩ else ⟨"Level1", 1, none, []⟩)).1.levelMap
        s.identifier).isSome = true)
  ∧ (loadLevels
        ⟨[⟨"Level0", 0, some "l0", []⟩, ⟨"Level1", 1, some "l1", []⟩],
         [("Level0", ⟨"Level0", 0, none, []⟩)],
         [some "Level0"], [some ⟨"Level0", 0, none, []⟩]⟩
        (fun p => if p == "l0" then ⟨"Level0", 0, none, []⟩ else ⟨"Level1", 1, none, []⟩)).2
      = 1 := by
  have h := claim_c8_load_levels_completeness
    ⟨[⟨"Level0", 0, some "l0", []⟩, ⟨"Level1", 1, some "l1", []⟩],
     [("Level0", ⟨"Level0", 0, none, []⟩)],
     [some "Level0"], [some ⟨"Level0", 0, none, []⟩]⟩
    (fun p => if p == "l0" then ⟨"Level0", 0, none, []⟩ else ⟨"Level1", 1, none, []⟩)
    2 rfl (by decide) (by decide)
    (by
      intro i s hget hload
      have hi : i < 2 := by
        by_contra hni
        rw [List.getElem?_eq_none (by simp; omega)] at hget
        cases hget
      interval_cases i
      · exact Nat.zero_lt_one
      · simp only [List.getElem?_cons_succ, List.getElem?_cons_zero, Option.some_inj] at hget
        subst hget
        simp [jsRecordGet, List.find?] at hload)
    (by decide)
  exact ⟨h.1, h.2.1, by rw [h.2.2]; rfl⟩

/-- Claim C5 (counterexample): for a raw layer record whose `type`
discriminant is `Bogus` (outside the closed set of four), the claim says
construction raises an error immediately; the constructor's switch has no
default clause, so construction instead succeeds silently with all four
payloads left null. -/
theorem claim_c5_unknown_type_counterexample :
    layerNew (World.ofDefs none) ⟨"Bogus", 2, 2, [], [], [], [], none, 7⟩
      = .ok ⟨none, none, none, none, []⟩ :=
  rfl

end LdtkTs
